import Mathlib

/-!
Shallow embedding of the Adobe-Design-Defenders backend (src/backend/main.py,
compliance.py, image_generator.py) and proofs about its claims.

Python strings are modelled as Lean String (or List Char for the functions that
scan character by character), Python float time values and percentages as ℚ,
Python int as Int or Nat, Python dicts as insertion-ordered association lists.
-/

namespace Backend

/-- Python `needle in hay` on lists of characters: true iff needle occurs as a
contiguous sublist of hay. -/
def containsSub (needle : List Char) : List Char → Bool
  | [] => needle.isEmpty
  | c :: rest => needle.isPrefixOf (c :: rest) || containsSub needle rest

/-- Python `needle in hay` on strings. -/
def pyInStr (needle hay : String) : Bool :=
  containsSub needle.toList hay.toList

/-- Python dict lookup `d.get(k)` for an insertion-ordered association list. -/
def dictFind {V : Type} : List (String × V) → String → Option V
  | [], _ => none
  | (k', v) :: rest, k => if k' = k then some v else dictFind rest k

/-- Python dict assignment `d[k] = v`: replaces in place, appends if absent. -/
def dictSet {V : Type} : List (String × V) → String → V → List (String × V)
  | [], k, v => [(k, v)]
  | (k', v') :: rest, k, v =>
    if k' = k then (k', v) :: rest else (k', v') :: dictSet rest k v

-- ==========================================================================
-- Data model (main.py lines 27-34)
-- ==========================================================================

/-- PostData dataclass from main.py: a social media post. -/
structure PostData where
  image_path : String
  likes : Int
deriving Repr, DecidableEq

/-- The parsed JSON feature dict returned by the vision model for one image:
category name mapped to a list of descriptive phrases. -/
abbrev Features := List (String × List String)

/-- One element of the list built by analyze_posts_batch: the post paired with
its features. -/
structure AnalyzedPost where
  post : PostData
  features : Features
deriving Repr, DecidableEq

-- ==========================================================================
-- ImageFeatureAnalyzer.categorize_posts_by_popularity (main.py 185-193)
-- ==========================================================================

/-- The sort key of `sorted(posts, key=lambda x: x.likes, reverse=True)`. -/
def likesDescBool (a b : PostData) : Bool := b.likes ≤ a.likes

/-- Python `sorted(posts, key=lambda x: x.likes, reverse=True)`: a stable sort
descending by likes. -/
def sortByLikesDesc (posts : List PostData) : List PostData :=
  posts.mergeSort likesDescBool

/-- Python `int()` applied to a rational: truncation toward zero, computed
as the truncating division of the numerator by the denominator. -/
def pyInt (q : ℚ) : Int := Int.tdiv q.num (q.den : Int)

/-- main.py 185-193: sort posts by likes descending, split at
`max(1, int(len(sorted_posts) * top_percentage))`. -/
def categorize_posts_by_popularity (posts : List PostData) (top_percentage : ℚ) :
    List PostData × List PostData :=
  let sorted_posts := sortByLikesDesc posts
  let split_index := (max 1 (pyInt ((sorted_posts.length : ℚ) * top_percentage))).toNat
  (sorted_posts.take split_index, sorted_posts.drop split_index)

/-- The split index of categorize_posts_by_popularity, named for the theorems. -/
def splitIndex (posts : List PostData) (top_percentage : ℚ) : Nat :=
  (max 1 (pyInt ((posts.length : ℚ) * top_percentage))).toNat

-- ==========================================================================
-- ImageFeatureAnalyzer.analyze_posts_batch (main.py 195-212)
-- ==========================================================================

/-- main.py 195-212: loop over the posts in order; analyze each image (the
external model call is the oracle argument, returning none when
analyze_single_image returns None after its retries); keep the post paired
with its features when the feature dict is truthy (non-None and non-empty),
skip it otherwise. -/
def analyze_posts_batch (analyze : PostData → Option Features)
    (posts : List PostData) : List AnalyzedPost :=
  posts.foldl (fun results post =>
    match analyze post with
    | some fs => if fs.isEmpty then results else results ++ [⟨post, fs⟩]
    | none => results) []

/-- Truthiness of the value analyze_single_image returned: Python
`if features:` is true iff the dict is present and non-empty. -/
def featuresTruthy (fs : Option Features) : Bool :=
  match fs with
  | none => false
  | some l => !l.isEmpty

-- ==========================================================================
-- RateLimiter.wait_if_needed (main.py 37-70)
-- ==========================================================================

/-- The RateLimiter state of main.py 40-44: configuration, the sliding-window
request timestamps and the time of the last request. Clock instants are
rationals (seconds); instructions take no time and time.sleep(w) advances the
clock by exactly w. -/
structure RateLimiter where
  maxRequests : Nat
  minDelay : ℚ
  requestTimes : List ℚ
  lastRequestTime : Option ℚ

/-- main.py 48-56: the clock value after the minimum-delay wait, reading
datetime.now() again after the sleep. -/
def rlNow1 (s : RateLimiter) (now0 : ℚ) : ℚ :=
  match s.lastRequestTime with
  | some last => if now0 - last < s.minDelay then last + s.minDelay else now0
  | none => now0

/-- main.py 58-59: drop the recorded timestamps older than one minute. -/
def rlPruned (s : RateLimiter) (now0 : ℚ) : List ℚ :=
  s.requestTimes.filter (fun t => rlNow1 s now0 - t < 60)

/-- main.py 46-70, one call on the idealized clock: entry at instant now0;
returns the new state and the instant at which the call returns, or none for
the IndexError Python raises on request_times[0] when the pruned list is
empty yet already at the limit (only possible with max_requests = 0). -/
def wait_if_needed (s : RateLimiter) (now0 : ℚ) : Option (RateLimiter × ℚ) :=
  if s.maxRequests ≤ (rlPruned s now0).length then
    match rlPruned s now0 with
    | [] => none
    | oldest :: restTimes =>
      if 0 < 61 - (rlNow1 s now0 - oldest) then
        some ({ s with
                requestTimes := [rlNow1 s now0 + (61 - (rlNow1 s now0 - oldest))],
                lastRequestTime :=
                  some (rlNow1 s now0 + (61 - (rlNow1 s now0 - oldest))) },
              rlNow1 s now0 + (61 - (rlNow1 s now0 - oldest)))
      else
        some ({ s with
                requestTimes := (oldest :: restTimes) ++ [rlNow1 s now0],
                lastRequestTime := some (rlNow1 s now0) },
              rlNow1 s now0)
  else
    some ({ s with
            requestTimes := rlPruned s now0 ++ [rlNow1 s now0],
            lastRequestTime := some (rlNow1 s now0) },
          rlNow1 s now0)

/-- A sequence of calls to wait_if_needed on one instance: each list entry is
the nonnegative time that elapses between the previous call returning and the
next call entering; the result records, per call, the return instant and the
state after the call (none when some call crashes). -/
def runRL (s : RateLimiter) (now : ℚ) : List ℚ → Option (List (ℚ × RateLimiter))
  | [] => some []
  | δ :: δs =>
    match wait_if_needed s (now + δ) with
    | none => none
    | some (s', r) =>
      match runRL s' r δs with
      | none => none
      | some rest => some ((r, s') :: rest)

-- ==========================================================================
-- ImageFeatureAnalyzer._retry_with_backoff (main.py 103-130)
-- ==========================================================================

/-- Outcome of one attempt of the wrapped function: a value, or an exception
carrying its message text. -/
inductive CallOutcome (α : Type) where
  | ok (v : α)
  | err (msg : String)

/-- The rate-limit markers of main.py line 113-116. -/
def rateLimitMarkers : List String :=
  ["429", "resource_exhausted", "quota", "rate limit",
   "too many requests", "limit exceeded"]

/-- Python str.lower restricted to the simple character mapping, written on
the character list so that it evaluates by kernel reduction. -/
def pyLower (s : String) : String :=
  String.mk (s.data.map Char.toLower)

/-- main.py 111-116: lowercase the exception text and look for any marker. -/
def isRateLimitError (msg : String) : Bool :=
  rateLimitMarkers.any (fun m => pyInStr m (pyLower msg))

/-- The retry loop of main.py 103-130, one recursion step per loop iteration:
attempt is the 0-based loop counter, the second argument the number of
iterations left. The result pairs the returned value (none models Python
returning None) with the list of delays passed to time.sleep, in order. -/
def retryFrom {α : Type} (maxRetries baseDelay : Nat)
    (outcomes : Nat → CallOutcome α) : Nat → Nat → Option α × List Nat
  | _, 0 => (none, [])
  | attempt, fuel + 1 =>
    match outcomes attempt with
    | CallOutcome.ok v => (some v, [])
    | CallOutcome.err msg =>
      if isRateLimitError msg then
        if attempt < maxRetries - 1 then
          let rest := retryFrom maxRetries baseDelay outcomes (attempt + 1) fuel
          (rest.1, baseDelay * 3 ^ attempt :: rest.2)
        else (none, [])
      else (none, [])

/-- main.py 103-130: for attempt in range(max_retries). -/
def retry_with_backoff {α : Type} (maxRetries baseDelay : Nat)
    (outcomes : Nat → CallOutcome α) : Option α × List Nat :=
  retryFrom maxRetries baseDelay outcomes 0 maxRetries

/-- Concrete outcome sequence used to witness the retry theorem: a rate-limit
failure on attempt 0, success on attempt 1. -/
def retryDemoOutcomes : Nat → CallOutcome Nat := fun k =>
  if k = 0 then CallOutcome.err "HTTP 429 Too Many Requests" else CallOutcome.ok 7

/-- analyze_posts_batch instrumented with the list of images passed to
analyze_single_image, in call order: the loop body of main.py 198-210 makes
exactly one analysis call per post before deciding to keep or skip it. -/
def analyze_posts_batch_trace (analyze : PostData → Option Features)
    (posts : List PostData) : List AnalyzedPost × List String :=
  posts.foldl (fun acc post =>
    let results := match analyze post with
      | some fs => if fs.isEmpty then acc.1 else acc.1 ++ [⟨post, fs⟩]
      | none => acc.1
    (results, acc.2 ++ [post.image_path])) ([], [])

-- ==========================================================================
-- BrandComplianceChecker._parse_response (compliance.py 137-153) and the
-- compliance-check endpoint status (compliance.py 398-413)
-- ==========================================================================

/-- Python str.upper restricted to the simple character mapping, on character
lists. -/
def pyUpperChars (cs : List Char) : List Char := cs.map Char.toUpper

/-- Python text.split of a string on a newline separator, on character
lists: the empty text yields one empty piece. -/
def splitOnNlChars : List Char → List (List Char)
  | [] => [[]]
  | c :: rest =>
    if c = '\n' then [] :: splitOnNlChars rest
    else
      match splitOnNlChars rest with
      | l :: ls => (c :: l) :: ls
      | [] => [[c]]

/-- The status marker searched for by _parse_response. -/
def complianceStatusMarker : List Char := "COMPLIANCE STATUS:".data

/-- compliance.py 139-143: the first line whose uppercase form contains the
marker, uppercased; the empty string when no line matches. -/
def findStatusLine : List (List Char) → List Char
  | [] => []
  | line :: rest =>
    if containsSub complianceStatusMarker (pyUpperChars line) then pyUpperChars line
    else findStatusLine rest

/-- The structured result of _parse_response. -/
structure ParsedCompliance where
  raw_analysis : List Char
  compliant : Bool
  status : List Char
deriving Repr, DecidableEq

/-- compliance.py 137-153: scan for the status line, then compliant is true
iff the line contains COMPLIANT but not NON-COMPLIANT. -/
def parse_response (response_text : List Char) : ParsedCompliance :=
  let status_line := findStatusLine (splitOnNlChars response_text)
  let compliant := containsSub "COMPLIANT".data status_line &&
    !(containsSub "NON-COMPLIANT".data status_line)
  ⟨response_text, compliant, status_line⟩

/-- compliance.py 402-411: the endpoint reports status passed or failed from
the parsed compliant flag. -/
def complianceEndpointStatus (compliant : Bool) : String :=
  if compliant then "passed" else "failed"

-- ==========================================================================
-- /post endpoint authentication guard (main.py 508-523 and 696-716)
-- ==========================================================================

/-- The externally visible actions the /post endpoint can take after its
authentication guard. -/
inductive PostAction where
  | linkedinApiCall (url : String)
  | fileWrite (path : String)
deriving Repr, DecidableEq

/-- config.json modelled as an insertion-ordered dict; none models an absent
file. -/
abbrev LinkedInConfig := List (String × String)

/-- main.py 508-513: an absent config file loads as the empty dict. -/
def load_config (configFile : Option LinkedInConfig) : LinkedInConfig :=
  configFile.getD []

/-- main.py 520-523: config.get of the access_token key. -/
def get_access_token (configFile : Option LinkedInConfig) : Option String :=
  dictFind (load_config configFile) "access_token"

/-- main.py 696-716: the /post endpoint checks the token before doing
anything else; with no (or a falsy) token it raises HTTP 401 having taken no
action, otherwise it proceeds to the LinkedIn userinfo call followed by the
remaining upload and post steps (abstracted as the remoteActions argument).
The second component is the list of actions taken. -/
def post_linkedin (configFile : Option LinkedInConfig)
    (remoteActions : List PostAction) :
    Except (Nat × String) Unit × List PostAction :=
  match get_access_token configFile with
  | none => (Except.error (401, "Not authenticated. Please visit /auth/login first"), [])
  | some token =>
    if token = "" then
      (Except.error (401, "Not authenticated. Please visit /auth/login first"), [])
    else
      (Except.ok (),
       PostAction.linkedinApiCall "https://api.linkedin.com/v2/userinfo" :: remoteActions)

-- ==========================================================================
-- Newest file matching a glob (main.py 1156-1166, compliance.py 369-387,
-- image_generator.py 178-185)
-- ==========================================================================

/-- A directory entry: name and modification time (st_mtime, modelled
exactly as a rational). -/
structure FileInfo where
  name : String
  mtime : ℚ
deriving Repr, DecidableEq

/-- Python max(files, key=lambda p: p.stat().st_mtime): the first element
whose key is maximal (later elements replace the best only when strictly
greater). -/
def pyMaxByMtime : List FileInfo → Option FileInfo
  | [] => none
  | f :: fs => some (fs.foldl (fun best g => if best.mtime < g.mtime then g else best) f)

/-- A glob pattern of the shape pre*suf: the name starts with pre and the
rest ends with suf. -/
def globStarMatch (pre suf : String) (name : String) : Bool :=
  pre.data.isPrefixOf name.data && suf.data.isSuffixOf (name.data.drop pre.data.length)

/-- main.py 1156-1165: the newest *.csv file in uploads/brand_images. -/
def latestCsvFile (files : List FileInfo) : Option FileInfo :=
  pyMaxByMtime (files.filter (fun f => globStarMatch "" ".csv" f.name))

/-- compliance.py 370-386: the newest brand_guidelines* file in uploads. -/
def latestGuidelinesFile (files : List FileInfo) : Option FileInfo :=
  pyMaxByMtime (files.filter (fun f => globStarMatch "brand_guidelines" "" f.name))

/-- image_generator.py 178-184: the newest brand_guidelines_*.pdf file. -/
def latestBrandPdfFile (files : List FileInfo) : Option FileInfo :=
  pyMaxByMtime (files.filter (fun f => globStarMatch "brand_guidelines_" ".pdf" f.name))

/-- Concrete posts used to witness the categorization theorem. -/
def demoPosts : List PostData := [⟨"a.png", 1⟩, ⟨"b.png", 5⟩, ⟨"c.png", 3⟩]

/-- Concrete directory listing used to witness the newest-file theorem. -/
def demoFiles : List FileInfo :=
  [⟨"posts.csv", 3⟩, ⟨"notes.txt", 9⟩, ⟨"newer.csv", 5⟩,
   ⟨"brand_guidelines_v1.pdf", 2⟩, ⟨"brand_guidelines_v2.pdf", 4⟩]

-- ==========================================================================
-- ImageFeatureAnalyzer.find_common_features (main.py 214-250)
-- ==========================================================================

/-- Python str(item).lower().strip(): lowercase, then strip whitespace from
both ends. -/
def pyNorm (s : String) : String :=
  String.mk
    ((((s.data.map Char.toLower).dropWhile Char.isWhitespace).reverse.dropWhile
      Char.isWhitespace).reverse)

/-- main.py 230-232: create the counter at 0 when absent, then add one. -/
def bumpFeature (d : List (String × Nat)) (k : String) : List (String × Nat) :=
  match dictFind d k with
  | some n => dictSet d k (n + 1)
  | none => dictSet d k 1

/-- main.py 228-232: count every normalized item of one category list. -/
def addItems (d : List (String × Nat)) (items : List String) : List (String × Nat) :=
  items.foldl (fun d item => bumpFeature d (pyNorm item)) d

/-- The feature_frequency dict: category mapped to a per-item counter dict. -/
abbrev FreqMap := List (String × List (String × Nat))

/-- main.py 224-232: fold one post's features into feature_frequency,
creating the category's counter dict when absent. -/
def addPost (freq : FreqMap) (features : Features) : FreqMap :=
  features.foldl (fun freq p =>
    dictSet freq p.1 (addItems ((dictFind freq p.1).getD []) p.2)) freq

/-- main.py 221-232: the whole frequency-aggregation loop. -/
def buildFreq (analyzed : List AnalyzedPost) : FreqMap :=
  analyzed.foldl (fun f p => addPost f p.features) []

/-- Lookup of one feature counter in feature_frequency. -/
def freqFind (freq : FreqMap) (cat item : String) : Option Nat :=
  match dictFind freq cat with
  | some inner => dictFind inner item
  | none => none

/-- Adds n observations to an optional counter: absent stays absent when
nothing is added, otherwise the counter is created at 0 and increased. -/
def optAdd (o : Option Nat) (n : Nat) : Option Nat :=
  if n = 0 then o else some (o.getD 0 + n)

/-- The well-formedness invariant of feature_frequency: category keys are
unique and so are the item keys of every counter dict. -/
def FreqInv (freq : FreqMap) : Prop :=
  (freq.map Prod.fst).Nodup ∧ ∀ p ∈ freq, (p.2.map Prod.fst).Nodup

/-- One entry of a category's common-feature list. -/
structure FeatureStat where
  feature : String
  frequency : Nat
  percentage : ℚ
deriving Repr, DecidableEq

/-- Floor of a rational, computed with flooring integer division. -/
def ratFloor (q : ℚ) : Int := Int.fdiv q.num (q.den : Int)

/-- Python round() to an integer: round half to even. -/
def roundHalfEven (q : ℚ) : Int :=
  let f := ratFloor q
  if q - (f : ℚ) < 1/2 then f
  else if (1 : ℚ)/2 < q - (f : ℚ) then f + 1
  else if f % 2 = 0 then f else f + 1

/-- Python round(x, 1): one decimal place, half to even. -/
def pyRound1 (q : ℚ) : ℚ := (roundHalfEven (q * 10) : ℚ) / 10

/-- main.py 214-250: empty dict for an empty input; otherwise aggregate the
per-category frequency of every normalized feature, keep those whose count
over the number of posts reaches the threshold, record count and the
percentage rounded to one decimal, and sort each category's list by
frequency descending (stable). -/
def find_common_features (analyzed_posts : List AnalyzedPost) (threshold : ℚ) :
    List (String × List FeatureStat) :=
  if analyzed_posts.isEmpty then []
  else
    let total_posts : ℚ := (analyzed_posts.length : ℚ)
    let feature_frequency := buildFreq analyzed_posts
    feature_frequency.map (fun catItems =>
      (catItems.1,
        (catItems.2.filterMap (fun ic =>
          if threshold ≤ (ic.2 : ℚ) / total_posts then
            some ⟨ic.1, ic.2, pyRound1 ((ic.2 : ℚ) / total_posts * 100)⟩
          else none)).mergeSort (fun a b => b.frequency ≤ a.frequency)))

/-- Specification-side count, from the claim's words: occurrences of the
normalized item summed over every per-category item list of every analyzed
post. -/
def countItemIn (features : Features) (cat item : String) : Nat :=
  (features.map (fun p =>
    if p.1 = cat then p.2.countP (fun it => pyNorm it = item) else 0)).sum

/-- Specification-side aggregated occurrence count over all posts. -/
def specFeatureCount (analyzed : List AnalyzedPost) (cat item : String) : Nat :=
  (analyzed.map (fun p => countItemIn p.features cat item)).sum

/-- Specification-side number of distinct posts listing the feature at
least once in the category. -/
def specPostsContaining (analyzed : List AnalyzedPost) (cat item : String) : Nat :=
  (analyzed.filter (fun p => 0 < countItemIn p.features cat item)).length

/-- Concrete analyzed post whose category lists the same normalized feature
twice, used for the find_common_features theorems. -/
def demoAnalyzed : List AnalyzedPost :=
  [⟨⟨"img.png", 10⟩, [("color_palette", ["Red", " red "])]⟩]

-- ==========================================================================
-- extract_code_from_response (main.py 434-451) and the extraction step of
-- the /api/generate-design endpoint (main.py 479-496)
-- ==========================================================================

/-- The three-backquote code fence. -/
def fence : List Char := [Char.ofNat 96, Char.ofNat 96, Char.ofNat 96]

/-- The language-tag alternatives of the first regex pattern of
extract_code_from_response, in alternation order. -/
def codeLangTags : List (List Char) :=
  ["javascript".data, "js".data, "tsx".data, "jsx".data, "typescript".data, "ts".data]

/-- Match the opening of a fenced block at the current position: a fence,
one of the tags tried in alternation order, then a newline; returns the text
after the newline. The bare-fence pattern of main.py line 441 is the
instance with the single empty tag. -/
def stripTagFence (tags : List (List Char)) (cs : List Char) : Option (List Char) :=
  match tags with
  | [] => none
  | tag :: rest =>
    let pre := fence ++ tag ++ ['\n']
    if pre.isPrefixOf cs then some (cs.drop pre.length) else stripTagFence rest cs

/-- The lazy group followed by the closing fence: split at the first fence
occurrence, returning the text before it (the group) and the text after
it. -/
def splitAtFence : List Char → Option (List Char × List Char)
  | [] => none
  | c :: rest =>
    if fence.isPrefixOf (c :: rest) then some ([], (c :: rest).drop 3)
    else
      match splitAtFence rest with
      | some (pre, post) => some (c :: pre, post)
      | none => none

/-- One anchored match attempt of a fenced-block pattern at the current
position: group text and remaining text after the match. -/
def tryMatchFence (tags : List (List Char)) (cs : List Char) :
    Option (List Char × List Char) :=
  match stripTagFence tags cs with
  | some body =>
    match splitAtFence body with
    | some (grp, after) => some (grp, after)
    | none => none
  | none => none

/-- re.findall: scan left to right; at each position try an anchored match;
on success emit the group and resume after the match, otherwise advance one
character. The fuel argument bounds the scan; every step consumes at least
one character, so fuel equal to the text length never runs out. -/
def findFenceBlocksAux (tags : List (List Char)) : Nat → List Char → List (List Char)
  | 0, _ => []
  | _ + 1, [] => []
  | fuel + 1, c :: rest =>
    match tryMatchFence tags (c :: rest) with
    | some (grp, after) => grp :: findFenceBlocksAux tags fuel after
    | none => findFenceBlocksAux tags fuel rest

/-- All matches of one fenced-block pattern over the text. -/
def findFenceBlocks (tags : List (List Char)) (cs : List Char) : List (List Char) :=
  findFenceBlocksAux tags cs.length cs

/-- main.py 434-451: None on empty text; otherwise collect the groups of
both patterns in order and join them with a blank line, or None when there
is no match at all. -/
def extract_code_from_response (text : List Char) : Option (List Char) :=
  if text.isEmpty then none
  else
    let code_blocks := findFenceBlocks codeLangTags text ++ findFenceBlocks [[]] text
    if code_blocks.isEmpty then none
    else some (List.intercalate ['\n', '\n'] code_blocks)

/-- main.py 479-485: the extraction step of the /api/generate-design
endpoint: HTTP 500 when the model response is empty; then the falsy test
`if not code:` raises HTTP 500 with the no-code-block detail both when
extraction returns None and when it returns the falsy empty string (possible
when every matched block is empty); the extracted code otherwise. -/
def generate_design_extract (response_text : List Char) :
    Except (Nat × String) (List Char) :=
  if response_text.isEmpty then Except.error (500, "No response from AI")
  else
    match extract_code_from_response response_text with
    | none => Except.error (500, "No code block found in AI response")
    | some code =>
      if code.isEmpty then Except.error (500, "No code block found in AI response")
      else Except.ok code

/-- A bare fenced block with empty contents: extraction joins one empty
group into the falsy empty string. -/
def demoEmptyFenced : List Char := fence ++ '\n' :: fence

end Backend

-- ==========================================================================
-- Theorems
-- ==========================================================================

namespace Backend

theorem dictFind_dictSet {V : Type} (d : List (String × V)) (k k' : String) (v : V) :
    dictFind (dictSet d k v) k' = if k = k' then some v else dictFind d k' := by
  induction d with
  | nil => by_cases h : k = k' <;> simp [dictSet, dictFind, h]
  | cons p rest ih =>
    obtain ⟨a, w⟩ := p
    by_cases ha : a = k
    · subst ha
      by_cases h : a = k' <;> simp [dictSet, dictFind, h]
    · by_cases h : a = k'
      · subst h
        have : ¬ k = a := fun hh => ha hh.symm
        simp [dictSet, dictFind, ha, this]
      · simp [dictSet, dictFind, ha, h, ih]

/-- analyze_posts_batch is the in-order filterMap of the per-post analysis. -/
theorem analyze_posts_batch_filterMap_aux (analyze : Backend.PostData → Option Backend.Features)
    (posts : List Backend.PostData) :
    analyze_posts_batch analyze posts =
      posts.filterMap (fun post =>
        match analyze post with
        | some fs => if fs.isEmpty then none else some ⟨post, fs⟩
        | none => none) := by
  show posts.foldl _ [] = _
  have key : ∀ (l : List Backend.PostData) (acc : List Backend.AnalyzedPost),
      l.foldl (fun results post =>
        match analyze post with
        | some fs => if fs.isEmpty then results else results ++ [⟨post, fs⟩]
        | none => results) acc =
      acc ++ l.filterMap (fun post =>
        match analyze post with
        | some fs => if fs.isEmpty then none else some ⟨post, fs⟩
        | none => none) := by
    intro l
    induction l with
    | nil => simp
    | cons p rest ih =>
      intro acc
      simp only [List.foldl_cons, List.filterMap_cons]
      cases h : analyze p with
      | none => simp only [h]; exact ih acc
      | some fs =>
        by_cases hfs : fs.isEmpty
        · simp only [h, if_pos hfs]
          exact ih acc
        · simp only [h, if_neg hfs]
          rw [ih]
          simp
  simpa using key posts []

theorem sortByLikesDesc_perm (posts : List PostData) :
    List.Perm (sortByLikesDesc posts) posts :=
  List.mergeSort_perm posts likesDescBool

theorem sortByLikesDesc_sorted (posts : List PostData) :
    (sortByLikesDesc posts).Pairwise (fun a b => b.likes ≤ a.likes) := by
  have h : (posts.mergeSort likesDescBool).Pairwise (fun a b => likesDescBool a b = true) :=
    List.sorted_mergeSort
      (fun a b c hab hbc => by
        simp only [likesDescBool, decide_eq_true_eq] at *; omega)
      (fun a b => by
        simp only [likesDescBool, Bool.or_eq_true, decide_eq_true_eq]
        exact Int.le_total b.likes a.likes)
      posts
  exact h.imp (fun hab => by simpa [likesDescBool] using hab)

/-- C3: categorize_posts_by_popularity partitions its input by popularity: the
two returned lists together are a permutation (multiset equality) of the
input; the first is the first max(1, int(len * p)) elements of the input
stably sorted by likes descending and the second the rest; and every post of
the first list has at least as many likes as every post of the second. -/
theorem categorize_posts_by_popularity_spec (posts : List PostData) (p : ℚ) :
    List.Perm ((categorize_posts_by_popularity posts p).1 ++
      (categorize_posts_by_popularity posts p).2) posts ∧
    (categorize_posts_by_popularity posts p).1 =
      (sortByLikesDesc posts).take (splitIndex posts p) ∧
    (categorize_posts_by_popularity posts p).2 =
      (sortByLikesDesc posts).drop (splitIndex posts p) ∧
    List.Perm (sortByLikesDesc posts) posts ∧
    (sortByLikesDesc posts).Pairwise (fun a b => b.likes ≤ a.likes) ∧
    ∀ a ∈ (categorize_posts_by_popularity posts p).1,
      ∀ b ∈ (categorize_posts_by_popularity posts p).2, b.likes ≤ a.likes := by
  have hlen : (sortByLikesDesc posts).length = posts.length := by
    simp [sortByLikesDesc]
  have htake : (categorize_posts_by_popularity posts p).1 =
      (sortByLikesDesc posts).take (splitIndex posts p) := by
    simp [categorize_posts_by_popularity, splitIndex, hlen]
  have hdrop : (categorize_posts_by_popularity posts p).2 =
      (sortByLikesDesc posts).drop (splitIndex posts p) := by
    simp [categorize_posts_by_popularity, splitIndex, hlen]
  have happ : (categorize_posts_by_popularity posts p).1 ++
      (categorize_posts_by_popularity posts p).2 = sortByLikesDesc posts := by
    rw [htake, hdrop]; exact List.take_append_drop _ _
  have hsorted := sortByLikesDesc_sorted posts
  have hge : ∀ a ∈ (categorize_posts_by_popularity posts p).1,
      ∀ b ∈ (categorize_posts_by_popularity posts p).2, b.likes ≤ a.likes := by
    have h2 := hsorted
    rw [← List.take_append_drop (splitIndex posts p) (sortByLikesDesc posts),
      List.pairwise_append] at h2
    intro a ha b hb
    exact h2.2.2 a (htake ▸ ha) b (hdrop ▸ hb)
  exact ⟨happ ▸ sortByLikesDesc_perm posts, htake, hdrop,
    sortByLikesDesc_perm posts, hsorted, hge⟩

unseal List.merge List.mergeSort Rat.mul Rat.inv in
/-- Witness for categorize_posts_by_popularity_spec: on the demo posts with
top_percentage 3/10 the popular list is the single most-liked post, whose
likes bound those of every less popular post. -/
theorem categorize_posts_by_popularity_spec_witness :
    (PostData.mk "a.png" 1).likes ≤ (PostData.mk "b.png" 5).likes :=
  (categorize_posts_by_popularity_spec demoPosts (3/10)).2.2.2.2.2
    ⟨"b.png", 5⟩ (by decide) ⟨"a.png", 1⟩ (by decide)

theorem retryFrom_succ {α : Type} (n b : Nat) (outcomes : Nat → CallOutcome α)
    (attempt fuel : Nat) :
    retryFrom n b outcomes attempt (fuel + 1) =
      match outcomes attempt with
      | CallOutcome.ok v => (some v, [])
      | CallOutcome.err msg =>
        if isRateLimitError msg then
          if attempt < n - 1 then
            ((retryFrom n b outcomes (attempt + 1) fuel).1,
             b * 3 ^ attempt :: (retryFrom n b outcomes (attempt + 1) fuel).2)
          else (none, [])
        else (none, []) := rfl

theorem retryFrom_all_rateLimit {α : Type} (n b : Nat) (outcomes : Nat → CallOutcome α) :
    ∀ (j a : Nat), a + j = n →
      (∀ k, k < j → ∃ msg, outcomes (a + k) = CallOutcome.err msg ∧
        isRateLimitError msg = true) →
      retryFrom n b outcomes a j =
        (none, (List.range' a (j - 1)).map (fun k => b * 3 ^ k)) := by
  intro j
  induction j with
  | zero => intro a _ _; simp [retryFrom]
  | succ j ih =>
    intro a hn hrl
    obtain ⟨msg, hmsg, hrlmsg⟩ := hrl 0 (Nat.succ_pos j)
    simp only [Nat.add_zero] at hmsg
    match j, hn with
    | 0, hn =>
      have hlt : ¬ a < n - 1 := by omega
      rw [retryFrom_succ]
      simp [hmsg, hrlmsg, hlt]
    | j' + 1, hn =>
      have hlt : a < n - 1 := by omega
      have hrest := ih (a + 1) (by omega) (fun k hk => by
        have := hrl (k + 1) (by omega)
        simpa [Nat.add_assoc, Nat.add_comm 1 k] using this)
      rw [retryFrom_succ]
      have hrange : List.range' a (j' + 2 - 1) = a :: List.range' (a + 1) (j' + 1 - 1) := by
        show List.range' a (j' + 1) = a :: List.range' (a + 1) j'
        exact List.range'_succ a j' 1
      simp only [hmsg, hrlmsg, if_true, if_pos hlt, hrest, hrange]
      simp

theorem retryFrom_stops {α : Type} (n b : Nat) (outcomes : Nat → CallOutcome α) :
    ∀ (j a fuel : Nat), a + fuel = n → j < fuel →
      (∀ k, k < j → ∃ msg, outcomes (a + k) = CallOutcome.err msg ∧
        isRateLimitError msg = true) →
      (∀ v, outcomes (a + j) = CallOutcome.ok v →
        retryFrom n b outcomes a fuel =
          (some v, (List.range' a j).map (fun k => b * 3 ^ k))) ∧
      (∀ msg, outcomes (a + j) = CallOutcome.err msg → isRateLimitError msg = false →
        retryFrom n b outcomes a fuel =
          (none, (List.range' a j).map (fun k => b * 3 ^ k))) := by
  intro j
  induction j with
  | zero =>
    intro a fuel hn hj _
    match fuel, hj with
    | fuel' + 1, _ =>
      constructor
      · intro v hv
        simp only [Nat.add_zero] at hv
        rw [retryFrom_succ]
        simp [hv]
      · intro msg hm hf
        simp only [Nat.add_zero] at hm
        rw [retryFrom_succ]
        simp [hm, hf]
  | succ j ih =>
    intro a fuel hn hj hrl
    match fuel, hj with
    | fuel' + 1, hj =>
      obtain ⟨msg, hmsg, hrlmsg⟩ := hrl 0 (Nat.succ_pos j)
      simp only [Nat.add_zero] at hmsg
      have hlt : a < n - 1 := by omega
      have hshift : ∀ k, k < j → ∃ m, outcomes (a + 1 + k) = CallOutcome.err m ∧
          isRateLimitError m = true := fun k hk => by
        have := hrl (k + 1) (by omega)
        simpa [Nat.add_assoc, Nat.add_comm 1 k] using this
      have hrec := ih (a + 1) fuel' (by omega) (by omega) hshift
      have hrange : List.range' a (j + 1) = a :: List.range' (a + 1) j :=
        List.range'_succ a j 1
      constructor
      · intro v hv
        have hv' : outcomes (a + 1 + j) = CallOutcome.ok v := by
          simpa [Nat.add_assoc, Nat.add_comm 1 j] using hv
        rw [retryFrom_succ]
        simp only [hmsg, hrlmsg, if_true, if_pos hlt, hrec.1 v hv', hrange]
        simp
      · intro m hm hf
        have hm' : outcomes (a + 1 + j) = CallOutcome.err m := by
          simpa [Nat.add_assoc, Nat.add_comm 1 j] using hm
        rw [retryFrom_succ]
        simp only [hmsg, hrlmsg, if_true, if_pos hlt, hrec.2 m hm' hf, hrange]
        simp

/-- C1: the retry loop of _retry_with_backoff with max_retries n >= 1 and
base_delay b. If the wrapped call raises rate-limit errors on every attempt
before attempt j, then: if j = n (rate-limited on all n attempts) it returns
None having slept b * 3 ^ k before each next attempt k + 1; if attempt j < n
succeeds its value is returned unchanged; if attempt j < n raises a
non-rate-limit error it returns None; in each case the delays slept are
exactly b * 3 ^ k for the completed rate-limited attempts k. -/
theorem retry_with_backoff_spec {α : Type} (n b : Nat) (hn : 1 ≤ n)
    (outcomes : Nat → CallOutcome α) (j : Nat)
    (hrl : ∀ k, k < j → ∃ msg, outcomes k = CallOutcome.err msg ∧
      isRateLimitError msg = true) :
    (j = n → retry_with_backoff n b outcomes =
      (none, (List.range (n - 1)).map (fun k => b * 3 ^ k))) ∧
    (j < n →
      (∀ v, outcomes j = CallOutcome.ok v →
        retry_with_backoff n b outcomes =
          (some v, (List.range j).map (fun k => b * 3 ^ k))) ∧
      (∀ msg, outcomes j = CallOutcome.err msg → isRateLimitError msg = false →
        retry_with_backoff n b outcomes =
          (none, (List.range j).map (fun k => b * 3 ^ k)))) := by
  constructor
  · intro hj
    subst hj
    rw [List.range_eq_range']
    exact retryFrom_all_rateLimit j b outcomes j 0 (by omega)
      (fun k hk => by simpa using hrl k hk)
  · intro hjn
    have h := retryFrom_stops n b outcomes j 0 n (by omega) hjn
      (fun k hk => by simpa using hrl k hk)
    rw [List.range_eq_range']
    exact ⟨fun v hv => h.1 v (by simpa using hv),
      fun msg hm hf => h.2 msg (by simpa using hm) hf⟩

/-- Witness for retry_with_backoff_spec: with max_retries 3, base_delay 2, a
rate-limit error on attempt 0 and success on attempt 1, the call returns 7
after sleeping 2 * 3 ^ 0 = 2 seconds once. -/
theorem retry_with_backoff_spec_witness :
    retry_with_backoff 3 2 retryDemoOutcomes = (some 7, [2]) := by
  have h := (retry_with_backoff_spec 3 2 (by omega) retryDemoOutcomes 1
    (fun k hk => by
      have hk0 : k = 0 := by omega
      subst hk0
      exact ⟨"HTTP 429 Too Many Requests", rfl, by decide⟩)).2 (by omega)
  have h2 := h.1 7 rfl
  simpa using h2

theorem analyze_posts_batch_trace_aux (analyze : PostData → Option Features)
    (posts : List PostData) :
    ∀ acc : List AnalyzedPost × List String,
      posts.foldl (fun acc post =>
        let results := match analyze post with
          | some fs => if fs.isEmpty then acc.1 else acc.1 ++ [⟨post, fs⟩]
          | none => acc.1
        (results, acc.2 ++ [post.image_path])) acc =
      (acc.1 ++ (posts.filterMap (fun post =>
          match analyze post with
          | some fs => if fs.isEmpty then none else some ⟨post, fs⟩
          | none => none)),
       acc.2 ++ posts.map (fun p => p.image_path)) := by
  induction posts with
  | nil => intro acc; simp
  | cons p rest ih =>
    intro acc
    simp only [List.foldl_cons, List.filterMap_cons, List.map_cons]
    cases h : analyze p with
    | none =>
      simp only [h]
      rw [ih]
      simp
    | some fs =>
      by_cases hfs : fs.isEmpty
      · simp only [h, if_pos hfs]
        rw [ih]
        simp
      · simp only [h, if_neg hfs]
        rw [ih]
        simp

/-- C5: analyze_posts_batch makes exactly one analysis call per input post,
in input order, and returns, in input order, one entry per post whose
analysis produced a truthy (present and non-empty) feature dict, pairing the
post with its features; posts whose analysis produced none or an empty dict
are skipped without aborting the batch. -/
theorem analyze_posts_batch_spec (analyze : PostData → Option Features)
    (posts : List PostData) :
    analyze_posts_batch analyze posts =
      posts.filterMap (fun post =>
        match analyze post with
        | some fs => if fs.isEmpty then none else some ⟨post, fs⟩
        | none => none) ∧
    (analyze_posts_batch_trace analyze posts).1 = analyze_posts_batch analyze posts ∧
    (analyze_posts_batch_trace analyze posts).2 = posts.map (fun p => p.image_path) ∧
    analyze_posts_batch analyze posts =
      posts.filterMap (fun post =>
        if featuresTruthy (analyze post) then
          some ⟨post, (analyze post).getD []⟩
        else none) := by
  have h1 := analyze_posts_batch_filterMap_aux analyze posts
  have h2 := analyze_posts_batch_trace_aux analyze posts ([], [])
  refine ⟨h1, ?_, ?_, ?_⟩
  · show (analyze_posts_batch_trace analyze posts).1 = _
    rw [h1]
    show (posts.foldl _ ([], [])).1 = _
    rw [h2]
    simp
  · show (posts.foldl _ ([], [])).2 = _
    rw [h2]
    simp
  · rw [h1]
    apply List.filterMap_congr
    intro post _
    cases h : analyze post with
    | none => simp [featuresTruthy]
    | some fs =>
      by_cases hfs : fs.isEmpty
      · simp [featuresTruthy, hfs]
      · simp [featuresTruthy, hfs]

theorem findStatusLine_eq_find? (lines : List (List Char)) :
    findStatusLine lines =
      ((lines.find? (fun l => containsSub complianceStatusMarker (pyUpperChars l))).map
        pyUpperChars).getD [] := by
  induction lines with
  | nil => rfl
  | cons line rest ih =>
    by_cases h : containsSub complianceStatusMarker (pyUpperChars line) = true
    · simp [findStatusLine, List.find?, h]
    · simp only [findStatusLine, List.find?]
      rw [if_neg (by simpa using h)]
      simp only [Bool.not_eq_true] at h
      rw [h]
      exact ih

/-- C10: _parse_response sets compliant to true iff the first line of the
text whose uppercase form contains COMPLIANCE STATUS: also contains
COMPLIANT but not NON-COMPLIANT; with no such line compliant is false; and a
false compliant flag makes the compliance-check endpoint report status
failed. -/
theorem parse_response_spec (text : List Char) :
    ((parse_response text).compliant = true ↔
      ∃ line, (splitOnNlChars text).find?
          (fun l => containsSub complianceStatusMarker (pyUpperChars l)) = some line ∧
        containsSub "COMPLIANT".data (pyUpperChars line) = true ∧
        containsSub "NON-COMPLIANT".data (pyUpperChars line) = false) ∧
    ((splitOnNlChars text).find?
        (fun l => containsSub complianceStatusMarker (pyUpperChars l)) = none →
      (parse_response text).compliant = false) ∧
    ((parse_response text).compliant = false →
      complianceEndpointStatus (parse_response text).compliant = "failed") := by
  have hstatus : (parse_response text).compliant =
      (containsSub "COMPLIANT".data (findStatusLine (splitOnNlChars text)) &&
       !(containsSub "NON-COMPLIANT".data (findStatusLine (splitOnNlChars text)))) := rfl
  refine ⟨?_, ?_, ?_⟩
  · rw [hstatus, findStatusLine_eq_find?]
    cases hf : (splitOnNlChars text).find?
        (fun l => containsSub complianceStatusMarker (pyUpperChars l)) with
    | none =>
      simp only [hf, Option.map_none, Option.getD_none]
      constructor
      · intro h
        exfalso
        revert h
        simp [containsSub, List.isEmpty]
      · rintro ⟨line, hline, -⟩
        exact absurd hline (by simp)
    | some line =>
      simp only [hf, Option.map_some, Option.getD_some]
      constructor
      · intro h
        simp only [Bool.and_eq_true, Bool.not_eq_true'] at h
        exact ⟨line, rfl, h.1, h.2⟩
      · rintro ⟨line', hline', h1, h2⟩
        have heq : line' = line := (Option.some_inj.mp hline').symm
        subst heq
        simp [h1, h2]
  · intro hf
    rw [hstatus, findStatusLine_eq_find?, hf]
    simp [containsSub, List.isEmpty]
  · intro h
    rw [h]
    rfl

/-- Witness for parse_response_spec: on the text COMPLIANCE STATUS: NEEDS
REVIEW the parsed compliant flag is false and the endpoint reports failed. -/
theorem parse_response_spec_witness :
    complianceEndpointStatus
      (parse_response "COMPLIANCE STATUS: NEEDS REVIEW".data).compliant = "failed" :=
  (parse_response_spec "COMPLIANCE STATUS: NEEDS REVIEW".data).2.2 (by decide)

/-- C9: with an absent config file, or a config without an access_token
entry, the /post endpoint fails with HTTP 401 and the given detail before
taking any action: no LinkedIn API call is made and no file is written. -/
theorem post_linkedin_auth_guard (configFile : Option LinkedInConfig)
    (remoteActions : List PostAction) :
    (configFile = none → get_access_token configFile = none) ∧
    (∀ cfg, configFile = some cfg → dictFind cfg "access_token" = none →
      get_access_token configFile = none) ∧
    (get_access_token configFile = none →
      post_linkedin configFile remoteActions =
        (Except.error (401, "Not authenticated. Please visit /auth/login first"),
         ([] : List PostAction)) ∧
      ∀ a : PostAction, a ∉ (post_linkedin configFile remoteActions).2) := by
  refine ⟨?_, ?_, ?_⟩
  · intro h
    subst h
    rfl
  · intro cfg hcfg hfind
    subst hcfg
    show dictFind cfg "access_token" = none
    exact hfind
  · intro h
    have heq : post_linkedin configFile remoteActions =
        (Except.error (401, "Not authenticated. Please visit /auth/login first"),
         ([] : List PostAction)) := by
      unfold post_linkedin
      rw [h]
    exact ⟨heq, by rw [heq]; simp⟩

/-- Witness for post_linkedin_auth_guard: with no config file at all the
endpoint returns the 401 error and takes no action. -/
theorem post_linkedin_auth_guard_witness :
    post_linkedin none [] =
      (Except.error (401, "Not authenticated. Please visit /auth/login first"),
       ([] : List PostAction)) :=
  ((post_linkedin_auth_guard none []).2.2 rfl).1

theorem pyMaxByMtime_foldl (fs : List FileInfo) : ∀ f : FileInfo,
    (fs.foldl (fun best g => if best.mtime < g.mtime then g else best) f) ∈ f :: fs ∧
    f.mtime ≤ (fs.foldl (fun best g => if best.mtime < g.mtime then g else best) f).mtime ∧
    ∀ g ∈ fs, g.mtime ≤
      (fs.foldl (fun best g => if best.mtime < g.mtime then g else best) f).mtime := by
  induction fs with
  | nil => intro f; simp
  | cons g rest ih =>
    intro f
    simp only [List.foldl_cons]
    by_cases h : f.mtime < g.mtime
    · rw [if_pos h]
      obtain ⟨hmem, hle, hall⟩ := ih g
      refine ⟨?_, ?_, ?_⟩
      · rcases List.mem_cons.mp hmem with h1 | h1
        · simp [h1]
        · simp only [List.mem_cons]
          right; right
          exact h1
      · exact le_trans (le_of_lt h) hle
      · intro x hx
        rcases List.mem_cons.mp hx with h1 | h1
        · subst h1; exact hle
        · exact hall x h1
    · rw [if_neg h]
      obtain ⟨hmem, hle, hall⟩ := ih f
      refine ⟨?_, ?_, ?_⟩
      · rcases List.mem_cons.mp hmem with h1 | h1
        · simp [h1]
        · simp only [List.mem_cons]
          right; right
          exact h1
      · exact hle
      · intro x hx
        rcases List.mem_cons.mp hx with h1 | h1
        · subst h1
          exact le_trans (le_of_not_lt h) hle
        · exact hall x h1

theorem pyMaxByMtime_spec (l : List FileInfo) (hne : l ≠ []) :
    ∃ f, pyMaxByMtime l = some f ∧ f ∈ l ∧ ∀ g ∈ l, g.mtime ≤ f.mtime := by
  match l, hne with
  | f0 :: fs, _ =>
    obtain ⟨hmem, hle, hall⟩ := pyMaxByMtime_foldl fs f0
    refine ⟨_, rfl, hmem, ?_⟩
    intro g hg
    rcases List.mem_cons.mp hg with h1 | h1
    · subst h1; exact hle
    · exact hall g h1

/-- C7: each of the three upload-reading code paths selects, among the files
matching its glob pattern, one with the greatest modification time:
analyze-past-posts over *.csv, compliance-check over brand_guidelines*, and
generate_design_from_text over brand_guidelines_*.pdf. -/
theorem newest_matching_file_spec (files : List FileInfo) :
    (files.filter (fun f => globStarMatch "" ".csv" f.name) ≠ [] →
      ∃ f, latestCsvFile files = some f ∧ f ∈ files ∧
        globStarMatch "" ".csv" f.name = true ∧
        ∀ g ∈ files, globStarMatch "" ".csv" g.name = true → g.mtime ≤ f.mtime) ∧
    (files.filter (fun f => globStarMatch "brand_guidelines" "" f.name) ≠ [] →
      ∃ f, latestGuidelinesFile files = some f ∧ f ∈ files ∧
        globStarMatch "brand_guidelines" "" f.name = true ∧
        ∀ g ∈ files, globStarMatch "brand_guidelines" "" g.name = true →
          g.mtime ≤ f.mtime) ∧
    (files.filter (fun f => globStarMatch "brand_guidelines_" ".pdf" f.name) ≠ [] →
      ∃ f, latestBrandPdfFile files = some f ∧ f ∈ files ∧
        globStarMatch "brand_guidelines_" ".pdf" f.name = true ∧
        ∀ g ∈ files, globStarMatch "brand_guidelines_" ".pdf" g.name = true →
          g.mtime ≤ f.mtime) := by
  have key : ∀ q : FileInfo → Bool, files.filter q ≠ [] →
      ∃ f, pyMaxByMtime (files.filter q) = some f ∧ f ∈ files ∧ q f = true ∧
        ∀ g ∈ files, q g = true → g.mtime ≤ f.mtime := by
    intro q hne
    obtain ⟨f, hmax, hmem, hall⟩ := pyMaxByMtime_spec (files.filter q) hne
    refine ⟨f, hmax, (List.mem_filter.mp hmem).1, (List.mem_filter.mp hmem).2, ?_⟩
    intro g hg hq
    exact hall g (List.mem_filter.mpr ⟨hg, hq⟩)
  exact ⟨key _, key _, key _⟩

/-- Witness for newest_matching_file_spec on the concrete demo listing. -/
theorem newest_matching_file_spec_witness :
    ∃ f, latestCsvFile demoFiles = some f ∧ f ∈ demoFiles ∧
      globStarMatch "" ".csv" f.name = true ∧
      ∀ g ∈ demoFiles, globStarMatch "" ".csv" g.name = true → g.mtime ≤ f.mtime :=
  (newest_matching_file_spec demoFiles).1 (by decide)

theorem splitAtFence_length : ∀ cs pre post : List Char,
    splitAtFence cs = some (pre, post) → post.length + 3 ≤ cs.length := by
  intro cs
  induction cs with
  | nil => intro pre post h; exact absurd h (by simp [splitAtFence])
  | cons c rest ih =>
    intro pre post h
    by_cases hp : fence.isPrefixOf (c :: rest) = true
    · rw [splitAtFence, if_pos hp] at h
      obtain ⟨-, h2⟩ := Prod.mk.injEq .. ▸ Option.some_inj.mp h
      have hlen : fence.length ≤ (c :: rest).length :=
        (List.isPrefixOf_iff_prefix.mp hp).length_le
      subst h2
      simp only [List.length_drop]
      simp only [fence, List.length_cons] at hlen ⊢
      omega
    · rw [splitAtFence, if_neg hp] at h
      cases hrec : splitAtFence rest with
      | none => rw [hrec] at h; exact absurd h (by simp)
      | some pp =>
        rw [hrec] at h
        obtain ⟨p1, p2⟩ := pp
        obtain ⟨-, h2⟩ := Prod.mk.injEq .. ▸ Option.some_inj.mp h
        subst h2
        have := ih p1 p2 hrec
        simp only [List.length_cons]
        omega

theorem stripTagFence_length : ∀ (tags : List (List Char)) (cs body : List Char),
    stripTagFence tags cs = some body → body.length + 4 ≤ cs.length := by
  intro tags
  induction tags with
  | nil => intro cs body h; exact absurd h (by simp [stripTagFence])
  | cons tag rest ih =>
    intro cs body h
    rw [stripTagFence] at h
    by_cases hp : (fence ++ tag ++ ['\n']).isPrefixOf cs = true
    · rw [if_pos hp] at h
      have hlen : (fence ++ tag ++ ['\n']).length ≤ cs.length :=
        (List.isPrefixOf_iff_prefix.mp hp).length_le
      have hbody := Option.some_inj.mp h
      subst hbody
      simp only [List.length_drop]
      simp only [fence, List.length_append, List.length_cons] at hlen ⊢
      omega
    · rw [if_neg hp] at h
      exact ih cs body h

theorem tryMatchFence_length (tags : List (List Char)) (cs grp after : List Char)
    (h : tryMatchFence tags cs = some (grp, after)) : after.length < cs.length := by
  rw [tryMatchFence] at h
  cases hs : stripTagFence tags cs with
  | none => rw [hs] at h; exact absurd h (by simp)
  | some body =>
    rw [hs] at h
    have h' : (match splitAtFence body with
        | some (grp, after) => some (grp, after)
        | none => none) = some (grp, after) := h
    cases hsp : splitAtFence body with
    | none => rw [hsp] at h'; exact absurd h' (by simp)
    | some pp =>
      rw [hsp] at h'
      obtain ⟨p1, p2⟩ := pp
      obtain ⟨-, h2⟩ := Prod.mk.injEq .. ▸ Option.some_inj.mp h'
      subst h2
      have h1 := stripTagFence_length tags cs body hs
      have h2 := splitAtFence_length body p1 p2 hsp
      omega

theorem findFenceBlocksAux_fuel (tags : List (List Char)) :
    ∀ (fuel1 fuel2 : Nat) (cs : List Char), cs.length ≤ fuel1 → cs.length ≤ fuel2 →
      findFenceBlocksAux tags fuel1 cs = findFenceBlocksAux tags fuel2 cs := by
  intro fuel1
  induction fuel1 with
  | zero =>
    intro fuel2 cs h1 _
    have : cs = [] := List.length_eq_zero.mp (Nat.le_zero.mp h1)
    subst this
    cases fuel2 <;> rfl
  | succ f1 ih =>
    intro fuel2 cs h1 h2
    cases cs with
    | nil => cases fuel2 <;> rfl
    | cons c rest =>
      match fuel2, h2 with
      | f2 + 1, h2 =>
        show findFenceBlocksAux tags (f1 + 1) (c :: rest) =
          findFenceBlocksAux tags (f2 + 1) (c :: rest)
        rw [findFenceBlocksAux, findFenceBlocksAux]
        cases hm : tryMatchFence tags (c :: rest) with
        | none =>
          simp only [List.length_cons] at h1 h2
          exact ih f2 rest (by omega) (by omega)
        | some pp =>
          obtain ⟨grp, after⟩ := pp
          have hlt := tryMatchFence_length tags (c :: rest) grp after hm
          simp only [List.length_cons] at h1 h2 hlt
          show grp :: findFenceBlocksAux tags f1 after =
            grp :: findFenceBlocksAux tags f2 after
          rw [ih f2 after (by omega) (by omega)]

/-- C6: extract_code_from_response returns None exactly when the text is
empty or neither fenced-block pattern matches anywhere in it; otherwise it
returns all matched block contents joined by a blank line; and on a
non-empty text the generate-design endpoint raises HTTP 500 with the
no-code-block detail whenever the extracted code is falsy: extraction
returned None, or it returned the empty string (every matched block
empty). -/
theorem extract_code_from_response_spec (text : List Char) :
    (extract_code_from_response text = none ↔
      text = [] ∨ (findFenceBlocks codeLangTags text = [] ∧
        findFenceBlocks [[]] text = [])) ∧
    (text ≠ [] →
      findFenceBlocks codeLangTags text ++ findFenceBlocks [[]] text ≠ [] →
      extract_code_from_response text =
        some (List.intercalate ['\n', '\n']
          (findFenceBlocks codeLangTags text ++ findFenceBlocks [[]] text))) ∧
    (text ≠ [] → extract_code_from_response text = none →
      generate_design_extract text =
        Except.error (500, "No code block found in AI response")) ∧
    (text ≠ [] → extract_code_from_response text = some [] →
      generate_design_extract text =
        Except.error (500, "No code block found in AI response")) := by
  refine ⟨?_, ?_, ?_, ?_⟩
  · constructor
    · intro h
      by_cases ht : text = []
      · exact Or.inl ht
      · right
        rw [extract_code_from_response, if_neg (by simpa using ht)] at h
        by_cases hb : (findFenceBlocks codeLangTags text ++
            findFenceBlocks [[]] text).isEmpty
        · constructor <;> [skip; skip] <;>
            · have := List.isEmpty_iff.mp hb
              rw [List.append_eq_nil] at this
              first
              | exact this.1
              | exact this.2
        · rw [if_neg hb] at h
          exact absurd h (by simp)
    · intro h
      rcases h with h | ⟨h1, h2⟩
      · subst h
        rfl
      · rw [extract_code_from_response]
        by_cases ht : text.isEmpty
        · rw [if_pos ht]
        · rw [if_neg ht, if_pos (by simp [h1, h2])]
  · intro ht hb
    rw [extract_code_from_response, if_neg (by simpa using ht),
      if_neg (by simpa using hb)]
  · intro ht hnone
    rw [generate_design_extract, if_neg (by simpa using ht), hnone]
  · intro ht hempty
    rw [generate_design_extract, if_neg (by simpa using ht), hempty]
    rfl

/-- Witness for extract_code_from_response_spec: a non-empty text with no
code fence makes the endpoint raise the 500 no-code-block error, and so
does a bare fenced block with empty contents, whose extraction yields the
falsy empty string. -/
theorem extract_code_from_response_spec_witness :
    generate_design_extract "Sorry, I cannot help with that.".data =
      Except.error (500, "No code block found in AI response") ∧
    extract_code_from_response demoEmptyFenced = some [] ∧
    generate_design_extract demoEmptyFenced =
      Except.error (500, "No code block found in AI response") :=
  ⟨(extract_code_from_response_spec "Sorry, I cannot help with that.".data).2.2.1
      (by decide) (by decide),
   by decide,
   (extract_code_from_response_spec demoEmptyFenced).2.2.2 (by decide) (by decide)⟩

theorem optAdd_zero (o : Option Nat) : optAdd o 0 = o := rfl

theorem optAdd_some (x n : Nat) : optAdd (some x) n = some (x + n) := by
  cases n <;> simp [optAdd]

theorem optAdd_optAdd (o : Option Nat) (m n : Nat) :
    optAdd (optAdd o m) n = optAdd o (m + n) := by
  rcases Nat.eq_zero_or_pos n with hn | hn
  · subst hn; simp [optAdd]
  · rcases Nat.eq_zero_or_pos m with hm | hm
    · subst hm; simp [optAdd]
    · have hm' : ¬ m = 0 := by omega
      have hn' : ¬ n = 0 := by omega
      have hmn : ¬ m + n = 0 := by omega
      simp only [optAdd, if_neg hm', if_neg hn', if_neg hmn, Option.getD_some]
      congr 1
      omega

theorem optAdd_none_eq_some {c n : Nat} (h : optAdd none c = some n) :
    c = n ∧ 0 < n := by
  by_cases hc : c = 0
  · subst hc
    simp [optAdd] at h
  · rw [optAdd, if_neg hc] at h
    simp only [Option.getD_none, Nat.zero_add] at h
    have := Option.some_inj.mp h
    omega

theorem mem_of_dictFind {V : Type} :
    ∀ (d : List (String × V)) (k : String) (v : V),
      dictFind d k = some v → (k, v) ∈ d := by
  intro d
  induction d with
  | nil => intro k v h; exact absurd h (by simp [dictFind])
  | cons p rest ih =>
    intro k v h
    obtain ⟨a, w⟩ := p
    by_cases ha : a = k
    · subst ha
      rw [dictFind, if_pos rfl] at h
      have := Option.some_inj.mp h
      subst this
      exact List.mem_cons_self _ _
    · rw [dictFind, if_neg ha] at h
      exact List.mem_cons_of_mem _ (ih k v h)

theorem dictFind_of_mem {V : Type} :
    ∀ (d : List (String × V)) (k : String) (v : V),
      (d.map Prod.fst).Nodup → (k, v) ∈ d → dictFind d k = some v := by
  intro d
  induction d with
  | nil => intro k v _ h; exact absurd h (by simp)
  | cons p rest ih =>
    intro k v hnd hmem
    obtain ⟨a, w⟩ := p
    simp only [List.map_cons, List.nodup_cons] at hnd
    rcases List.mem_cons.mp hmem with h1 | h1
    · obtain ⟨h1a, h1b⟩ := Prod.mk.injEq .. ▸ h1
      subst h1a
      subst h1b
      rw [dictFind, if_pos rfl]
    · by_cases ha : a = k
      · subst ha
        exfalso
        exact hnd.1 (List.mem_map.mpr ⟨(a, v), h1, rfl⟩)
      · rw [dictFind, if_neg ha]
        exact ih k v hnd.2 h1

theorem mem_dictSet {V : Type} :
    ∀ (d : List (String × V)) (k : String) (v : V) (p : String × V),
      p ∈ dictSet d k v → p ∈ d ∨ p = (k, v) := by
  intro d
  induction d with
  | nil =>
    intro k v p h
    simp only [dictSet, List.mem_singleton] at h
    exact Or.inr h
  | cons q rest ih =>
    intro k v p h
    obtain ⟨a, w⟩ := q
    by_cases ha : a = k
    · rw [dictSet, if_pos ha] at h
      rcases List.mem_cons.mp h with h1 | h1
      · subst ha
        exact Or.inr (h1.trans rfl)
      · exact Or.inl (List.mem_cons_of_mem _ h1)
    · rw [dictSet, if_neg ha] at h
      rcases List.mem_cons.mp h with h1 | h1
      · exact Or.inl (h1 ▸ List.mem_cons_self _ _)
      · rcases ih k v p h1 with h2 | h2
        · exact Or.inl (List.mem_cons_of_mem _ h2)
        · exact Or.inr h2

theorem mem_keys_dictSet {V : Type} :
    ∀ (d : List (String × V)) (k : String) (v : V) (a : String),
      a ∈ (dictSet d k v).map Prod.fst → a ∈ d.map Prod.fst ∨ a = k := by
  intro d k v a h
  obtain ⟨p, hp, hpa⟩ := List.mem_map.mp h
  rcases mem_dictSet d k v p hp with h1 | h1
  · exact Or.inl (List.mem_map.mpr ⟨p, h1, hpa⟩)
  · subst h1
    exact Or.inr hpa.symm

theorem nodup_keys_dictSet {V : Type} :
    ∀ (d : List (String × V)) (k : String) (v : V),
      (d.map Prod.fst).Nodup → ((dictSet d k v).map Prod.fst).Nodup := by
  intro d
  induction d with
  | nil => intro k v _; simp [dictSet]
  | cons q rest ih =>
    intro k v hnd
    obtain ⟨a, w⟩ := q
    simp only [List.map_cons, List.nodup_cons] at hnd
    by_cases ha : a = k
    · rw [dictSet, if_pos ha]
      simp only [List.map_cons, List.nodup_cons]
      exact ⟨hnd.1, hnd.2⟩
    · rw [dictSet, if_neg ha]
      simp only [List.map_cons, List.nodup_cons]
      refine ⟨?_, ih k v hnd.2⟩
      intro hmem
      rcases mem_keys_dictSet rest k v a hmem with h1 | h1
      · exact hnd.1 h1
      · exact ha h1

theorem dictFind_bumpFeature (d : List (String × Nat)) (k k' : String) :
    dictFind (bumpFeature d k) k' =
      if k = k' then some ((dictFind d k').getD 0 + 1) else dictFind d k' := by
  rw [bumpFeature]
  cases h : dictFind d k with
  | some n =>
    rw [dictFind_dictSet]
    by_cases hk : k = k'
    · subst hk
      rw [if_pos rfl, if_pos rfl, h]
      rfl
    · rw [if_neg hk, if_neg hk]
  | none =>
    rw [dictFind_dictSet]
    by_cases hk : k = k'
    · subst hk
      rw [if_pos rfl, if_pos rfl, h]
      rfl
    · rw [if_neg hk, if_neg hk]

theorem nodup_keys_bumpFeature (d : List (String × Nat)) (k : String)
    (h : (d.map Prod.fst).Nodup) : ((bumpFeature d k).map Prod.fst).Nodup := by
  rw [bumpFeature]
  cases dictFind d k <;> exact nodup_keys_dictSet d k _ h

theorem dictFind_addItems (items : List String) :
    ∀ (d : List (String × Nat)) (k : String),
      dictFind (addItems d items) k =
        optAdd (dictFind d k) (items.countP (fun it => pyNorm it = k)) := by
  induction items with
  | nil => intro d k; simp [addItems, optAdd]
  | cons i rest ih =>
    intro d k
    show dictFind (addItems (bumpFeature d (pyNorm i)) rest) k = _
    rw [ih, dictFind_bumpFeature]
    by_cases hik : pyNorm i = k
    · rw [if_pos hik, optAdd_some]
      have hcount : List.countP (fun it => decide (pyNorm it = k)) (i :: rest) =
          List.countP (fun it => decide (pyNorm it = k)) rest + 1 := by
        rw [List.countP_cons]
        simp [hik]
      rw [hcount]
      cases hd : dictFind d k with
      | none =>
        have hne : ¬ (List.countP (fun it => decide (pyNorm it = k)) rest + 1 = 0) := by
          omega
        rw [optAdd, if_neg hne]
        simp only [Option.getD_none, Option.getD_some]
        congr 1
        omega
      | some x =>
        rw [optAdd_some]
        simp only [Option.getD_some]
        congr 1
        omega
    · rw [if_neg hik]
      have hcount : List.countP (fun it => decide (pyNorm it = k)) (i :: rest) =
          List.countP (fun it => decide (pyNorm it = k)) rest := by
        rw [List.countP_cons]
        simp [hik]
      rw [hcount]

theorem nodup_keys_addItems (items : List String) :
    ∀ d : List (String × Nat), (d.map Prod.fst).Nodup →
      ((addItems d items).map Prod.fst).Nodup := by
  induction items with
  | nil => intro d h; exact h
  | cons i rest ih =>
    intro d h
    exact ih _ (nodup_keys_bumpFeature d (pyNorm i) h)

theorem freqFind_getD (freq : FreqMap) (cat item : String) :
    dictFind ((dictFind freq cat).getD []) item = freqFind freq cat item := by
  rw [freqFind]
  cases dictFind freq cat with
  | none => rfl
  | some inner => rfl

theorem freqFind_addPost (features : Features) :
    ∀ (freq : FreqMap) (cat item : String),
      freqFind (addPost freq features) cat item =
        optAdd (freqFind freq cat item) (countItemIn features cat item) := by
  induction features with
  | nil => intro freq cat item; simp [addPost, countItemIn, optAdd]
  | cons p rest ih =>
    intro freq cat item
    obtain ⟨c, items⟩ := p
    show freqFind (addPost (dictSet freq c (addItems ((dictFind freq c).getD []) items))
      rest) cat item = _
    rw [ih]
    have hstep : freqFind (dictSet freq c (addItems ((dictFind freq c).getD []) items))
        cat item =
        optAdd (freqFind freq cat item)
          (if c = cat then items.countP (fun it => pyNorm it = item) else 0) := by
      by_cases hc : c = cat
      · subst hc
        rw [freqFind, dictFind_dictSet, if_pos rfl, if_pos rfl]
        show dictFind (addItems ((dictFind freq c).getD []) items) item = _
        rw [dictFind_addItems, freqFind_getD]
      · rw [freqFind, dictFind_dictSet, if_neg hc, if_neg hc, optAdd_zero, freqFind]
    rw [hstep, optAdd_optAdd]
    congr 1

theorem freqInv_addPost (features : Features) :
    ∀ freq : FreqMap, FreqInv freq → FreqInv (addPost freq features) := by
  induction features with
  | nil => intro freq h; exact h
  | cons p rest ih =>
    intro freq h
    obtain ⟨c, items⟩ := p
    apply ih
    obtain ⟨houter, hinner⟩ := h
    constructor
    · exact nodup_keys_dictSet freq c _ houter
    · intro q hq
      rcases mem_dictSet freq c _ q hq with h1 | h1
      · exact hinner q h1
      · subst h1
        show ((addItems ((dictFind freq c).getD []) items).map Prod.fst).Nodup
        apply nodup_keys_addItems
        cases hd : dictFind freq c with
        | none => simp
        | some inner =>
          simp only [Option.getD_some]
          exact hinner (c, inner) (mem_of_dictFind freq c inner hd)

theorem freqFind_buildFreq (analyzed : List AnalyzedPost) :
    ∀ (freq : FreqMap) (cat item : String),
      freqFind (analyzed.foldl (fun f p => addPost f p.features) freq) cat item =
        optAdd (freqFind freq cat item) (specFeatureCount analyzed cat item) := by
  induction analyzed with
  | nil => intro freq cat item; simp [specFeatureCount, optAdd]
  | cons a rest ih =>
    intro freq cat item
    simp only [List.foldl_cons]
    rw [ih, freqFind_addPost, optAdd_optAdd]
    congr 1

theorem freqFind_buildFreq_closed (analyzed : List AnalyzedPost) (cat item : String) :
    freqFind (buildFreq analyzed) cat item =
      optAdd none (specFeatureCount analyzed cat item) := by
  rw [buildFreq, freqFind_buildFreq]
  rfl

theorem freqInv_buildFreq (analyzed : List AnalyzedPost) : FreqInv (buildFreq analyzed) := by
  rw [buildFreq]
  have key : ∀ (l : List AnalyzedPost) (freq : FreqMap), FreqInv freq →
      FreqInv (l.foldl (fun f p => addPost f p.features) freq) := by
    intro l
    induction l with
    | nil => intro freq h; exact h
    | cons a rest ih =>
      intro freq h
      exact ih _ (freqInv_addPost a.features freq h)
  exact key analyzed [] ⟨List.nodup_nil, by simp⟩

theorem mem_find_common_features (analyzed : List AnalyzedPost) (t : ℚ)
    (hne : analyzed ≠ []) (cat : String) (l : List FeatureStat) :
    (cat, l) ∈ find_common_features analyzed t ↔
      ∃ inner, (cat, inner) ∈ buildFreq analyzed ∧
        l = (inner.filterMap (fun ic =>
          if t ≤ (ic.2 : ℚ) / (analyzed.length : ℚ) then
            some ⟨ic.1, ic.2, pyRound1 ((ic.2 : ℚ) / (analyzed.length : ℚ) * 100)⟩
          else none)).mergeSort (fun a b => b.frequency ≤ a.frequency) := by
  rw [find_common_features, if_neg (by simpa using hne)]
  simp only [List.mem_map, Prod.mk.injEq]
  constructor
  · rintro ⟨⟨c0, inner⟩, hmem, h1, h2⟩
    exact ⟨inner, h1 ▸ hmem, h2.symm⟩
  · rintro ⟨inner, hmem, hl⟩
    exact ⟨(cat, inner), hmem, rfl, hl.symm⟩

theorem find_common_features_sound (analyzed : List AnalyzedPost) (t : ℚ)
    (hne : analyzed ≠ []) (cat : String) (l : List FeatureStat)
    (hmem : (cat, l) ∈ find_common_features analyzed t) :
    ∀ e ∈ l, e.frequency = specFeatureCount analyzed cat e.feature ∧
      0 < e.frequency ∧
      t ≤ (e.frequency : ℚ) / (analyzed.length : ℚ) ∧
      e.percentage = pyRound1 ((e.frequency : ℚ) / (analyzed.length : ℚ) * 100) := by
  obtain ⟨inner, hinner, hl⟩ := (mem_find_common_features analyzed t hne cat l).mp hmem
  intro e he
  rw [hl, List.mem_mergeSort] at he
  obtain ⟨ic, hic, hif⟩ := List.mem_filterMap.mp he
  obtain ⟨item, n⟩ := ic
  by_cases hth : t ≤ (n : ℚ) / (analyzed.length : ℚ)
  case neg => rw [if_neg hth] at hif; exact absurd hif (by simp)
  rw [if_pos hth] at hif
  have he2 := Option.some_inj.mp hif
  have hinv := freqInv_buildFreq analyzed
  have hfreqcat : dictFind (buildFreq analyzed) cat = some inner :=
    dictFind_of_mem _ cat inner hinv.1 hinner
  have hinneritem : dictFind inner item = some n :=
    dictFind_of_mem inner item n (hinv.2 (cat, inner) hinner) hic
  have hff : freqFind (buildFreq analyzed) cat item = some n := by
    rw [freqFind, hfreqcat]
    exact hinneritem
  rw [freqFind_buildFreq_closed] at hff
  obtain ⟨hcn, hpos⟩ := optAdd_none_eq_some hff
  subst he2
  exact ⟨hcn.symm, hpos, hth, rfl⟩

theorem find_common_features_complete (analyzed : List AnalyzedPost) (t : ℚ)
    (hne : analyzed ≠ []) (cat : String) (l : List FeatureStat)
    (hmem : (cat, l) ∈ find_common_features analyzed t) :
    ∀ item, 0 < specFeatureCount analyzed cat item →
      t ≤ (specFeatureCount analyzed cat item : ℚ) / (analyzed.length : ℚ) →
      ∃ e ∈ l, e.feature = item ∧
        e.frequency = specFeatureCount analyzed cat item := by
  obtain ⟨inner, hinner, hl⟩ := (mem_find_common_features analyzed t hne cat l).mp hmem
  intro item hpos hth
  have hff : freqFind (buildFreq analyzed) cat item =
      some (specFeatureCount analyzed cat item) := by
    rw [freqFind_buildFreq_closed, optAdd, if_neg (by omega)]
    simp
  have hinv := freqInv_buildFreq analyzed
  have hfreqcat : dictFind (buildFreq analyzed) cat = some inner :=
    dictFind_of_mem _ cat inner hinv.1 hinner
  rw [freqFind, hfreqcat] at hff
  have hmemInner : (item, specFeatureCount analyzed cat item) ∈ inner :=
    mem_of_dictFind inner item _ hff
  refine ⟨⟨item, specFeatureCount analyzed cat item,
    pyRound1 ((specFeatureCount analyzed cat item : ℚ) / (analyzed.length : ℚ) * 100)⟩,
    ?_, rfl, rfl⟩
  rw [hl, List.mem_mergeSort]
  exact List.mem_filterMap.mpr
    ⟨(item, specFeatureCount analyzed cat item), hmemInner, by rw [if_pos hth]⟩

theorem find_common_features_sorted (analyzed : List AnalyzedPost) (t : ℚ)
    (hne : analyzed ≠ []) (cat : String) (l : List FeatureStat)
    (hmem : (cat, l) ∈ find_common_features analyzed t) :
    List.Pairwise (fun a b => b.frequency ≤ a.frequency) l := by
  obtain ⟨inner, hinner, hl⟩ := (mem_find_common_features analyzed t hne cat l).mp hmem
  have key : ∀ xs : List FeatureStat,
      (xs.mergeSort (fun a b => b.frequency ≤ a.frequency)).Pairwise
        (fun a b => b.frequency ≤ a.frequency) := by
    intro xs
    have h : (xs.mergeSort (fun a b => decide (b.frequency ≤ a.frequency))).Pairwise
        (fun a b => decide (b.frequency ≤ a.frequency) = true) :=
      List.sorted_mergeSort
        (fun a b c hab hbc => by
          simp only [decide_eq_true_eq] at *; omega)
        (fun a b => by
          simp only [Bool.or_eq_true, decide_eq_true_eq]
          exact Nat.le_total b.frequency a.frequency)
        xs
    exact h.imp (fun hab => by simpa using hab)
  rw [hl]
  exact key _

/-- C4: find_common_features returns the empty dict on an empty input;
otherwise every category list it returns holds exactly the normalized
features whose aggregated occurrence count divided by the number of analyzed
posts reaches the threshold, each entry carrying that count and the
percentage rounded to one decimal place, and each list is sorted by
frequency descending. -/
theorem find_common_features_spec (analyzed : List AnalyzedPost) (t : ℚ) :
    (analyzed = [] → find_common_features analyzed t = []) ∧
    (analyzed ≠ [] → ∀ cat l, (cat, l) ∈ find_common_features analyzed t →
      (∀ e ∈ l, e.frequency = specFeatureCount analyzed cat e.feature ∧
        0 < e.frequency ∧
        t ≤ (e.frequency : ℚ) / (analyzed.length : ℚ) ∧
        e.percentage = pyRound1 ((e.frequency : ℚ) / (analyzed.length : ℚ) * 100)) ∧
      (∀ item, 0 < specFeatureCount analyzed cat item →
        t ≤ (specFeatureCount analyzed cat item : ℚ) / (analyzed.length : ℚ) →
        ∃ e ∈ l, e.feature = item ∧
          e.frequency = specFeatureCount analyzed cat item) ∧
      List.Pairwise (fun a b => b.frequency ≤ a.frequency) l) := by
  constructor
  · intro h
    subst h
    rfl
  · intro hne cat l hmem
    exact ⟨find_common_features_sound analyzed t hne cat l hmem,
      find_common_features_complete analyzed t hne cat l hmem,
      find_common_features_sorted analyzed t hne cat l hmem⟩

unseal Rat.mul Rat.inv Rat.add Rat.sub List.merge List.mergeSort in
/-- Witness for find_common_features_spec on the concrete one-post input:
the feature red (normalized from Red and from a spaced lowercase variant)
reaches the threshold and appears with its aggregated count 2. -/
theorem find_common_features_spec_witness :
    ∃ e ∈ [(⟨"red", 2, 200⟩ : FeatureStat)], e.feature = "red" ∧
      e.frequency = specFeatureCount demoAnalyzed "color_palette" "red" :=
  ((find_common_features_spec demoAnalyzed (3/10)).2 (by decide)
    "color_palette" [⟨"red", 2, 200⟩] (by decide)).2.1 "red" (by decide) (by decide)

unseal Rat.mul Rat.inv Rat.add Rat.sub List.merge List.mergeSort in
/-- C8: the reported frequency counts occurrences, not distinct posts: on
the one-post input whose category lists Red and a spaced lowercase red, the
normalized feature red gets frequency 2 while only 1 post contains it, and
the reported percentage 200.0 exceeds 100. -/
theorem find_common_features_counts_occurrences :
    find_common_features demoAnalyzed (3/10) =
      [("color_palette", [⟨"red", 2, 200⟩])] ∧
    specFeatureCount demoAnalyzed "color_palette" "red" = 2 ∧
    specPostsContaining demoAnalyzed "color_palette" "red" = 1 ∧
    specPostsContaining demoAnalyzed "color_palette" "red" <
      specFeatureCount demoAnalyzed "color_palette" "red" ∧
    (100 : ℚ) < 200 := by
  refine ⟨by decide, by decide, by decide, by decide, by decide⟩

theorem wait_if_needed_step (s : RateLimiter) (now0 : ℚ)
    (hm : 1 ≤ s.maxRequests) (hlen : s.requestTimes.length ≤ s.maxRequests) :
    ∃ s' r, wait_if_needed s now0 = some (s', r) ∧
      s'.maxRequests = s.maxRequests ∧
      s'.minDelay = s.minDelay ∧
      s'.requestTimes.length ≤ s.maxRequests ∧
      s'.lastRequestTime = some r ∧
      ∀ last, s.lastRequestTime = some last → last + s.minDelay ≤ r := by
  have hminlemma : ∀ last, s.lastRequestTime = some last →
      last + s.minDelay ≤ rlNow1 s now0 := by
    intro last hl
    rw [rlNow1, hl]
    show last + s.minDelay ≤
      if now0 - last < s.minDelay then last + s.minDelay else now0
    by_cases hc : now0 - last < s.minDelay
    · rw [if_pos hc]
    · rw [if_neg hc]
      have h2 := not_lt.mp hc
      linarith
  have hprlen : (rlPruned s now0).length ≤ s.maxRequests :=
    le_trans (List.length_filter_le _ _) hlen
  rw [wait_if_needed]
  by_cases hfull : s.maxRequests ≤ (rlPruned s now0).length
  · rw [if_pos hfull]
    cases hp : rlPruned s now0 with
    | nil =>
      exfalso
      rw [hp] at hfull
      simp only [List.length_nil, Nat.le_zero] at hfull
      omega
    | cons oldest restT =>
      have hmem : oldest ∈ rlPruned s now0 := by
        rw [hp]
        exact List.mem_cons_self _ _
      have hlt60 : rlNow1 s now0 - oldest < 60 := by
        rw [rlPruned] at hmem
        have h2 := List.mem_filter.mp hmem
        simpa using h2.2
      have hwait : 0 < 61 - (rlNow1 s now0 - oldest) := by linarith
      refine ⟨{ s with
          requestTimes := [rlNow1 s now0 + (61 - (rlNow1 s now0 - oldest))],
          lastRequestTime :=
            some (rlNow1 s now0 + (61 - (rlNow1 s now0 - oldest))) },
        rlNow1 s now0 + (61 - (rlNow1 s now0 - oldest)), ?_, rfl, rfl, ?_, rfl, ?_⟩
      · simp only [hp]
        rw [if_pos hwait]
      · simpa using hm
      · intro last hl
        have h1 := hminlemma last hl
        linarith
  · rw [if_neg hfull]
    refine ⟨{ s with
        requestTimes := rlPruned s now0 ++ [rlNow1 s now0],
        lastRequestTime := some (rlNow1 s now0) }, rlNow1 s now0,
      rfl, rfl, rfl, ?_, rfl, ?_⟩
    · simp only [List.length_append, List.length_cons, List.length_nil]
      have h2 := not_le.mp hfull
      omega
    · intro last hl
      exact hminlemma last hl

theorem runRL_invariant (m : Nat) (d : ℚ) (hm : 1 ≤ m) :
    ∀ (ds : List ℚ) (s : RateLimiter) (now : ℚ),
      s.maxRequests = m → s.minDelay = d → s.requestTimes.length ≤ m →
      ∃ trace, runRL s now ds = some trace ∧
        (∀ p ∈ trace, p.2.requestTimes.length ≤ m) ∧
        List.Chain' (fun a b => a.1 + d ≤ b.1) trace ∧
        (∀ last, s.lastRequestTime = some last →
          ∀ p, trace.head? = some p → last + d ≤ p.1) := by
  intro ds
  induction ds with
  | nil =>
    intro s now _ _ _
    exact ⟨[], rfl, by simp, List.chain'_nil, by simp⟩
  | cons δ rest ih =>
    intro s now hsm hsd hslen
    obtain ⟨s', r, heq, hm', hd', hlen', hlast', hmin'⟩ :=
      wait_if_needed_step s (now + δ) (hsm ▸ hm) (hsm ▸ hslen)
    obtain ⟨trace', htr', hlen'', hchain', hhead'⟩ :=
      ih s' r (by rw [hm', hsm]) (by rw [hd', hsd]) (hsm ▸ hlen')
    refine ⟨(r, s') :: trace', ?_, ?_, ?_, ?_⟩
    · simp only [runRL, heq, htr']
    · intro p hp
      rcases List.mem_cons.mp hp with h1 | h1
      · subst h1
        exact hsm ▸ hlen'
      · exact hlen'' p h1
    · rw [List.chain'_cons']
      refine ⟨?_, hchain'⟩
      intro b hb
      exact hhead' r hlast' b (Option.mem_def.mp hb)
    · intro last hl p hp
      simp only [List.head?_cons] at hp
      have hpe := Option.some_inj.mp hp
      subst hpe
      have h1 := hmin' last hl
      rw [hsd] at h1
      exact h1

/-- C2: on one RateLimiter instance with max_requests_per_minute m at least 1
and min_delay_seconds d (idealized exact clock: instructions take no time,
time.sleep(w) advances the clock by exactly w), every sequence of calls
completes with consecutive return instants at least d apart, and after every
call the limiter holds at most m recorded timestamps, hence at most m inside
the one-minute window preceding the return instant; with m = 0 no call ever
returns (Python raises IndexError), making the claim vacuous there. -/
theorem rate_limiter_spec (m : Nat) (d t0 : ℚ) (ds : List ℚ) :
    (1 ≤ m → ∃ trace, runRL (RateLimiter.mk m d [] none) t0 ds = some trace ∧
      List.Chain' (fun a b => a.1 + d ≤ b.1) trace ∧
      ∀ p ∈ trace, p.2.requestTimes.length ≤ m ∧
        (p.2.requestTimes.filter (fun t => p.1 - t < 60)).length ≤ m) ∧
    (m = 0 → ∀ (δ : ℚ) (ds2 : List ℚ),
      runRL (RateLimiter.mk m d [] none) t0 (δ :: ds2) = none) := by
  constructor
  · intro hm
    obtain ⟨trace, heq, hlen, hchain, -⟩ :=
      runRL_invariant m d hm ds (RateLimiter.mk m d [] none) t0 rfl rfl (by simp)
    refine ⟨trace, heq, hchain, ?_⟩
    intro p hp
    exact ⟨hlen p hp, le_trans (List.length_filter_le _ _) (hlen p hp)⟩
  · intro hm δ ds2
    subst hm
    simp [runRL, wait_if_needed, rlPruned, rlNow1]

/-- Witness for rate_limiter_spec: the default-style configuration m = 1,
d = 12, two back-to-back calls. -/
theorem rate_limiter_spec_witness :
    ∃ trace, runRL (RateLimiter.mk 1 12 [] none) 0 [0, 0] = some trace ∧
      List.Chain' (fun a b => a.1 + 12 ≤ b.1) trace ∧
      ∀ p ∈ trace, p.2.requestTimes.length ≤ 1 ∧
        (p.2.requestTimes.filter (fun t => p.1 - t < 60)).length ≤ 1 :=
  (rate_limiter_spec 1 12 0 [0, 0]).1 (by decide)

end Backend
